import Mathlib

/-!
Verification of the Sea-RAG frontend chat core
(`sea-rag-frontend/src/services/api.ts`,
`sea-rag-frontend/src/components/ChatInterface.tsx`,
`sea-rag-frontend/src/components/MarkdownRenderer.tsx`).

The development shallowly embeds:
* the SSE transport of `processChatStream` (blank-line framed byte stream,
  incremental buffering, terminal `done`/`error` events),
* the session controller formed by the callbacks of `handleSend`
  (`onToken`, `onCitation`, `onDone`, `onError`) together with `clearChat`,
* the image-path resolver `fixedSrc` of `MarkdownRenderer`, and
* the URL-scheme allowlists of `sanitizeSchema`.

JavaScript strings are modelled as `List Char` where the byte/character level
matters (stream framing, path parsing) and as `String` at the controller level.
`JSON.parse` success is abstracted as a Boolean oracle `jok` on the payload
text, since every behaviour proved here is uniform in the JSON decoder.
-/

namespace SeaRag

/-! ### Generic list splitting, mirroring JavaScript `String.prototype.split` -/

/-- `l.split(sepc)` for a single-character separator: greedy left-to-right scan,
splitting at every occurrence.  `[]` maps to `[[]]` exactly as in JavaScript
(`"".split(c) === [""]`). -/
def splitChar (sepc : Char) : List Char → List (List Char)
  | [] => [[]]
  | c :: rest =>
    if c = sepc then [] :: splitChar sepc rest
    else
      match splitChar sepc rest with
      | [] => [[c]]
      | b :: bs => (c :: b) :: bs

/-- `buffer.split('\n\n')`: splitting on the two-character blank-line delimiter
used by the SSE framing in `processChatStream`.  Greedy left-to-right,
non-overlapping, like the JavaScript `split`. -/
def splitBlankLine : List Char → List (List Char)
  | [] => [[]]
  | [c] => [[c]]
  | c :: c2 :: rest =>
    if c = '\n' ∧ c2 = '\n' then
      [] :: splitBlankLine rest
    else
      match splitBlankLine (c2 :: rest) with
      | [] => [[c]]
      | b :: bs => (c :: b) :: bs

/-- Splits a split-result into `(events, buffer)` exactly like
`const events = buffer.split('\n\n'); buffer = events.pop() || ''`:
all elements but the last, and the last element. -/
def initLast {α : Type} : List (List α) → List (List α) × List α
  | [] => ([], [])
  | [b] => ([], b)
  | b :: b2 :: bs =>
    let r := initLast (b2 :: bs)
    (b :: r.1, r.2)

/-- `haystack.includes(needle)` on character lists. -/
def listContains (needle : List Char) : List Char → Bool
  | [] => needle.isEmpty
  | c :: rest => needle.isPrefixOf (c :: rest) || listContains needle rest

/-! ### The transport: `processChatStream`'s framing loop (api.ts 256-307) -/

/-- One framed SSE event as it leaves the transport: the `event:` marker and
the raw `data:` payload (JSON decoding of the payload is deterministic in the
payload and happens downstream). -/
structure RawEvent where
  etype : List Char
  edata : List Char
deriving DecidableEq

/-- `event.trim()` is empty: the block consists of JavaScript whitespace only
(the ASCII whitespace cases suffice for the protocol alphabet). -/
def jsBlank (b : List Char) : Bool :=
  b.all fun c => c = ' ' || c = '\n' || c = '\t' || c = '\r'

/-- Scanning the lines of one block for `event: ` / `data: ` markers:
`event.split('\n')` is folded, each `line.startsWith('event: ')` overwriting
`eventType` with `line.substring(7)` and each `line.startsWith('data: ')`
overwriting `eventData` with `line.substring(6)` (the last matching line
wins, as reassignment does in the source). -/
def parseBlockFields (b : List Char) : List Char × List Char :=
  (splitChar '\n' b).foldl
    (fun acc line =>
      if ("event: ".toList).isPrefixOf line then (line.drop 7, acc.2)
      else if ("data: ".toList).isPrefixOf line then (acc.1, line.drop 6)
      else acc)
    ([], [])

/-- The events a single delimited block contributes, and whether it is
terminal.  `jok` abstracts `JSON.parse` success on the payload: a decode
failure is logged and skipped (`ProtocolError` degrades to a skipped event).
`done` and `error` stop the read loop (`return`). -/
def blockEvents (jok : List Char → Bool) (b : List Char) : List RawEvent × Bool :=
  if jsBlank b then ([], false)
  else
    let f := parseBlockFields b
    if f.1 ≠ [] ∧ f.2 ≠ [] then
      if jok f.2 then
        if f.1 = "citation".toList then ([⟨f.1, f.2⟩], false)
        else if f.1 = "token".toList then ([⟨f.1, f.2⟩], false)
        else if f.1 = "done".toList then ([⟨f.1, f.2⟩], true)
        else if f.1 = "error".toList then ([⟨f.1, f.2⟩], true)
        else ([], false)
      else ([], false)
    else ([], false)

/-- Runs the `for (const event of events)` loop over the complete blocks of one
chunk: accumulates emitted events and stops at the first terminal block. -/
def runBlocks (jok : List Char → Bool) : List (List Char) → List RawEvent × Bool
  | [] => ([], false)
  | b :: bs =>
    let e := blockEvents jok b
    if e.2 then (e.1, true)
    else
      let r := runBlocks jok bs
      (e.1 ++ r.1, r.2)

/-- The `while (true)` read loop of `processChatStream`: each chunk is appended to
the buffer, the buffer is split on the blank-line delimiter, the last
(possibly incomplete) part is retained as the new buffer, the complete blocks
are processed in order, and a terminal block ends the whole loop.  When the
byte stream ends (`done` from the reader) the loop exits and whatever remains
in the buffer is discarded. -/
def processChunks (jok : List Char → Bool) (buf : List Char) : List (List Char) → List RawEvent
  | [] => []
  | c :: cs =>
    let parts := splitBlankLine (buf ++ c)
    let il := initLast parts
    let r := runBlocks jok il.1
    if r.2 then r.1 else r.1 ++ processChunks jok il.2 cs

/-- Parsing the entire byte stream in one piece: the complete blocks of the
whole string, run through the block loop. -/
def batchRun (jok : List Char → Bool) (s : List Char) : List RawEvent :=
  (runBlocks jok (initLast (splitBlankLine s)).1).1

/-! ### The session controller: the state owned by `ChatInterface`
(ChatInterface.tsx 50-76) and the callbacks of `handleSend` (131-253). -/

/-- A `Reference` record as built by the `onCitation` callback
(ChatInterface.tsx 12-21, 178-187). -/
structure Reference where
  id : Nat
  text : String
  page : Nat
  citationId : Option String
  rank : Option Nat
  snippet : Option String
  previewUrl : Option String
  fileId : Option String
deriving DecidableEq

inductive Role where
  | user
  | assistant
deriving DecidableEq

/-- A chat `Message` (ChatInterface.tsx 24-30).  The `id` and `timestamp`
fields are drawn from the ambient clock (`Date.now()`, `new Date()`) and are
omitted; no behaviour in this development depends on them. -/
structure Message where
  type : Role
  content : String
  references : Option (List Reference)
deriving DecidableEq

/-- The decoded payload of a `citation` stream event
(the callback argument type, ChatInterface.tsx 166-173).  `page` is typed
`number` but the code guards it with `?? 0` / `?? "?"`, so it is modelled as
optional. -/
structure CitationPayload where
  citation_id : String
  fileId : String
  rank : Nat
  page : Option Nat
  previewUrl : String
  snippet : Option String
deriving DecidableEq

/-- `abortRef.current`: the abort controller for the active stream.  The
source declares the ref (ChatInterface.tsx 76) and calls
`abortRef.current?.abort()` in three places, but no statement anywhere in the
source ever assigns `abortRef.current`, and `processChatStream` accepts no
abort signal. -/
structure AbortCtrl where
  aborted : Bool
deriving DecidableEq

/-- The session state of `ChatInterface`: committed messages, the typing/busy
flag, the pending turn (`currentResponse`/`currentReferences`/`citationIds`,
kept in the state and mirrored in refs which the code updates in lockstep),
and the abort handle. -/
structure Session where
  messages : List Message
  isTyping : Bool
  currentResponse : String
  currentReferences : List Reference
  citationIds : List String
  abortCtrl : Option AbortCtrl
deriving DecidableEq

/-- The initial assistant greeting (ChatInterface.tsx 47-48). -/
def welcomeMessage : Message :=
  { type := .assistant
    content := "Hello! I'm your AI assistant. You can chat directly, and if you upload a PDF I can answer with document-grounded citations."
    references := none }

/-- The state after mount (ChatInterface.tsx 50-54, 67-76). -/
def initialSession : Session :=
  { messages := [welcomeMessage], isTyping := false, currentResponse := ""
    currentReferences := [], citationIds := [], abortCtrl := none }

/-- `abortRef.current?.abort()` — the only cancellation mechanism in the
source (used by re-send, `clearChat` and the unmount cleanup).  Optional
chaining: a null handle makes the call a no-op. -/
def requestAbort (s : Session) : Session :=
  match s.abortCtrl with
  | none => s
  | some a => { s with abortCtrl := some { a with aborted := true } }

/-- The part of `handleSend` that runs before the stream is opened
(ChatInterface.tsx 137-154): append the user message, raise the typing flag,
reset the pending-turn accumulation. -/
def startTurn (s : Session) (userText : String) : Session :=
  { s with
    messages := s.messages ++ [{ type := .user, content := userText, references := none }]
    isTyping := true
    currentResponse := ""
    currentReferences := []
    citationIds := [] }

/-- The `onToken` callback (ChatInterface.tsx 161-164): append verbatim. -/
def onToken (s : Session) (t : String) : Session :=
  { s with currentResponse := s.currentResponse ++ t }

/-- The `onCitation` callback (ChatInterface.tsx 166-192): ignore an empty or
already-seen `citation_id`; otherwise append a `Reference` with display index
`length + 1` and record the id in the seen-set. -/
def onCitation (s : Session) (c : CitationPayload) : Session :=
  if c.citation_id = "" ∨ c.citation_id ∈ s.citationIds then s
  else
    let newRef : Reference :=
      { id := s.currentReferences.length + 1
        text := "第 " ++ (match c.page with | some p => toString p | none => "?") ++ " 页相关内容"
        page := c.page.getD 0
        citationId := some c.citation_id
        rank := some c.rank
        snippet := c.snippet
        previewUrl := some c.previewUrl
        fileId := some c.fileId }
    { s with
      citationIds := s.citationIds ++ [c.citation_id]
      currentReferences := s.currentReferences ++ [newRef] }

/-- The `onDone` callback (ChatInterface.tsx 194-219): commit the buffered
response (`finalResponse || "_（空响应）_"`) with the accumulated references
(`finalRefs.length ? finalRefs : undefined`), clear the pending turn, drop the
typing flag.  `usedRetrieval` only drives an external toast. -/
def onDone (s : Session) (_usedRetrieval : Bool) : Session :=
  let m : Message :=
    { type := .assistant
      content := if s.currentResponse = "" then "_（空响应）_" else s.currentResponse
      references := if s.currentReferences.length ≠ 0 then some s.currentReferences else none }
  { s with
    messages := s.messages ++ [m]
    isTyping := false
    currentResponse := ""
    currentReferences := []
    citationIds := [] }

/-- The `onError` callback (ChatInterface.tsx 221-238): commit a synthetic
assistant message built from the error text, with no references, and clear
the pending turn. -/
def onError (s : Session) (errText : String) : Session :=
  { s with
    isTyping := false
    currentResponse := ""
    currentReferences := []
    citationIds := []
    messages := s.messages ++
      [{ type := .assistant
         content := "抱歉，处理你的请求时出现错误：" ++ errText
         references := none }] }

/-- One callback invocation as delivered by the transport. -/
inductive CB where
  | token (t : String)
  | citation (c : CitationPayload)
  | done (usedRetrieval : Bool)
  | error (msg : String)
deriving DecidableEq

/-- `done` and `error` are the terminal callbacks of a turn. -/
def CB.isTerminal : CB → Bool
  | .done _ => true
  | .error _ => true
  | _ => false

def CB.isError : CB → Bool
  | .error _ => true
  | _ => false

/-- Applying a sequence of stream callbacks to the session state, in arrival
order (the single-threaded event loop applies them strictly in order). -/
def consume (s : Session) : List CB → Session
  | [] => s
  | .token t :: cbs => consume (onToken s t) cbs
  | .citation c :: cbs => consume (onCitation s c) cbs
  | .done u :: cbs => consume (onDone s u) cbs
  | .error e :: cbs => consume (onError s e) cbs

/-- The concatenation, in arrival order, of the text of the token callbacks. -/
def concatTokens : List CB → String
  | [] => ""
  | .token t :: cbs => t ++ concatTokens cbs
  | _ :: cbs => concatTokens cbs

/-! ### The catch block of `processChatStream` (api.ts 308-353) and the mock
stream it produces when the network is unreachable. -/

/-- The verbatim template literal `mockResponse` (api.ts 312-333), with the
user's message interpolated. -/
def mockResponse (message : String) : String :=
  "I understand you're asking about: \"" ++ message ++ "\".\n\nSince the backend API is not currently available, I'm showing you a demonstration of the interface. \n\n## Key Features Demonstrated:\n- **Markdown rendering**: This response shows how text formatting works\n- **Code blocks**: Here's an example:\n\n```javascript\n// Example code with syntax highlighting\nfunction processDocument(content) \x7b\n  return content.split('\\n').map(line => (\x7b\n    text: line,\n    analysis: performAnalysis(line)\n  \x7d));\n\x7d\n```\n\n- **Reference citations**: This would normally include citations like [1] and [2] when connected to a real backend\n- **Streaming responses**: Text appears progressively as it would from the AI\n\nTo see the full functionality, please start the backend server at `localhost:8001` and upload a PDF document."

/-- `mockResponse.split(' ')` as a list of strings. -/
def jsSplitSpace (s : String) : List String :=
  (splitChar ' ' s.toList).map fun l => String.mk l

/-- The callbacks fired by the simulated-streaming branch (api.ts 335-349):
every word of the mock response as a token with a trailing space, then
`onDone({ used_retrieval: false })`. -/
def mockTrace (message : String) : List CB :=
  ((jsSplitSpace (mockResponse message)).map fun w => CB.token (w ++ " ")) ++ [CB.done false]

/-- A transport-level failure of the chat request, before any payload byte is
received. -/
inductive FailKind where
  | httpError (statusText : String)
  | noBody
  | networkUnreachable
deriving DecidableEq

/-- The callback trace produced by `processChatStream` when the request fails
before any payload byte arrives (api.ts 247-253 raise, 308-353 handle):
a non-ok response throws `Chat request failed: <statusText>` which the catch
block forwards to `onError`; a missing body behaves likewise; a fetch
rejection with `TypeError: Failed to fetch` instead streams the simulated
mock response. -/
def catchTrace (message : String) : FailKind → List CB
  | .httpError st => [CB.error ("Chat request failed: " ++ st)]
  | .noBody => [CB.error "No response body"]
  | .networkUnreachable => mockTrace message

/-! ### `clearChat` (ChatInterface.tsx 262-296) over the outcome of the
`clearSession` collaborator (api.ts 357-375). -/

/-- The observable outcome of `await clearSession(threadId)`. -/
inductive ClearOutcome where
  | success
  | networkUnreachable
  | errorResponse (statusText : String)
deriving DecidableEq

/-- `clearChat`: request an abort of the active stream, call `clearSession`,
then reset the message list to the single welcome message — but only when the
collaborator succeeded, or failed with `TypeError: Failed to fetch`; a non-ok
response from `clearSession` throws a plain `Error`, which is only logged and
toasted, leaving the message list untouched. -/
def clearChat (s : Session) : ClearOutcome → Session
  | .success => { requestAbort s with messages := [welcomeMessage] }
  | .networkUnreachable => { requestAbort s with messages := [welcomeMessage] }
  | .errorResponse _ => requestAbort s

/-! ### The image-path resolver (MarkdownRenderer.tsx 274-324). -/

/-- `API_BASE` (MarkdownRenderer.tsx 12). -/
def apiBase : List Char := "http://localhost:8000/api/v1".toList

/-- `API_HOST`: `API_BASE` with the trailing `/api/v1` stripped
(MarkdownRenderer.tsx 13). -/
def apiHost : List Char := "http://localhost:8000".toList

/-- `toAbsoluteApiUrl` (MarkdownRenderer.tsx 44-49). -/
def toAbsoluteApiUrl (src : List Char) : List Char :=
  if src = [] then []
  else if ("http://".toList).isPrefixOf src || ("https://".toList).isPrefixOf src then src
  else if ("/api/".toList).isPrefixOf src then apiHost ++ src
  else src

/-- JavaScript truthiness of a `string | undefined` value:
`undefined` and the empty string are falsy. -/
def optTruthyS (o : Option String) : Bool := !(o.getD "" == "")

/-- The canonical extracted-image address built by `fixedSrc`
(MarkdownRenderer.tsx 319): no URL-encoding is applied at this call site. -/
def urlFor (fileId filename : List Char) : List Char :=
  apiBase ++ "/pdf/images?fileId=".toList ++ fileId ++ "&imagePath=".toList ++ filename

/-- `filename.match(/page(\d+)/i)` with `parseInt(_, 10)`: try to match
`page` (case-insensitively) followed by at least one digit at this position;
the digit run is maximal. -/
def matchPageAt : List Char → Option Nat
  | p :: a :: g :: e :: rest =>
    if (p = 'p' ∨ p = 'P') ∧ (a = 'a' ∨ a = 'A') ∧ (g = 'g' ∨ g = 'G') ∧ (e = 'e' ∨ e = 'E') then
      let digits := rest.takeWhile Char.isDigit
      if digits = [] then none
      else some (digits.foldl (fun n c => n * 10 + (c.toNat - '0'.toNat)) 0)
    else none
  | _ => none

/-- The regex scan: the first position (left to right) where the whole pattern
matches wins. -/
def findPageNum : List Char → Option Nat
  | [] => none
  | c :: cs =>
    match matchPageAt (c :: cs) with
    | some n => some n
    | none => findPageNum cs

/-- The fileId-selection block of `fixedSrc` (MarkdownRenderer.tsx 296-315):
`targetFileId` starts as `fallbackFileId`; when the reference list is
non-empty, a page-matching reference with a truthy fileId overrides it, and
only when the running value is still falsy (`if (!targetFileId)`) is the
first reference with a truthy fileId consulted. -/
def chainTarget (imgPage : Option Nat) (references : List Reference)
    (fallbackFileId : Option String) : Option String :=
  if 0 < references.length then
    let t1 : Option String :=
      match imgPage with
      | some p =>
        match references.find? (fun r => r.page == p && optTruthyS r.fileId) with
        | some mr => if optTruthyS mr.fileId then mr.fileId else fallbackFileId
        | none => fallbackFileId
      | none => fallbackFileId
    if optTruthyS t1 then t1
    else
      match references.find? (fun r => optTruthyS r.fileId) with
      | some ar => if optTruthyS ar.fileId then ar.fileId else t1
      | none => t1
  else fallbackFileId

/-- `fixedSrc` of `ImgComponent` (MarkdownRenderer.tsx 277-324): absolute and
`/api/` paths are rebased via `toAbsoluteApiUrl`; a relative path containing
`images/` has its filename (`src.split("/").pop()`) and encoded page number
extracted, a target fileId is chosen by `chainTarget`, and a truthy target
yields the canonical asset address — anything else yields `""`. -/
def fixedSrc (src : List Char) (references : List Reference) (fallbackFileId : Option String) :
    List Char :=
  if src = [] then []
  else if ("http".toList).isPrefixOf src || ("/api/".toList).isPrefixOf src then
    toAbsoluteApiUrl src
  else if listContains ("images/".toList) src then
    let filename := (initLast (splitChar '/' src)).2
    if filename = [] then []
    else
      let target := chainTarget (findPageNum filename) references fallbackFileId
      if optTruthyS target then urlFor ((target.getD "").toList) filename else []
  else []

/-- The fallback chain the code actually implements, as a choice of fileId:
(i) the first reference whose page equals the extracted page and whose fileId
is truthy; (ii) else `fallbackFileId` when truthy; (iii) else the first
reference with a truthy fileId; (iv) else unresolved. -/
def resolveTail (refs : List Reference) (fb : Option String) : Option String :=
  if optTruthyS fb then fb
  else
    match refs.find? (fun r => optTruthyS r.fileId) with
    | some r => r.fileId
    | none => none

def resolveOrder (imgPage : Option Nat) (refs : List Reference) (fb : Option String) :
    Option String :=
  match imgPage with
  | some p =>
    match refs.find? (fun r => r.page == p && optTruthyS r.fileId) with
    | some r => r.fileId
    | none => resolveTail refs fb
  | none => resolveTail refs fb

/-- The fallback chain in the order the claim states it: (i) page match;
(ii) else the first reference with any fileId; (iii) else `fallbackFileId`;
(iv) else unresolved. -/
def claimTail (refs : List Reference) (fb : Option String) : Option String :=
  match refs.find? (fun r => optTruthyS r.fileId) with
  | some r => r.fileId
  | none => fb

def claimResolve (imgPage : Option Nat) (refs : List Reference) (fb : Option String) :
    Option String :=
  match imgPage with
  | some p =>
    match refs.find? (fun r => r.page == p && optTruthyS r.fileId) with
    | some r => r.fileId
    | none => claimTail refs fb
  | none => claimTail refs fb

/-! ### The sanitizer allowlists (MarkdownRenderer.tsx 15-41). -/

/-- `sanitizeSchema.protocols.src` (MarkdownRenderer.tsx 38). -/
def srcProtocols : List String := ["http", "https", "data", "blob"]

/-- `sanitizeSchema.protocols.href` (MarkdownRenderer.tsx 39). -/
def hrefProtocols : List String := ["http", "https", "mailto", "tel"]

/-- The scheme of an address: the text before the first `:`, when one occurs. -/
def urlScheme (u : String) : Option String :=
  match splitChar ':' u.toList with
  | s :: _ :: _ => some (String.mk s)
  | _ => none

/-- Modelled from the spec: the sanitizing stage keeps an address attribute
whose scheme is on the allowlist unchanged and silently drops any other
schemed address (the filtering itself is performed by the external
`rehype-sanitize`/`hast-util-sanitize` dependency, configured with the
`protocols` lists of `sanitizeSchema`; only those lists live in this
repository). -/
def sanitizeUrl (allowed : List String) (u : String) : Option String :=
  match urlScheme u with
  | none => some u
  | some sch => if sch ∈ allowed then some u else none

def sanitizeImgSrc (u : String) : Option String := sanitizeUrl srcProtocols u

def sanitizeLinkHref (u : String) : Option String := sanitizeUrl hrefProtocols u

/-- The distinct non-empty citation ids of a stream, in first-seen order,
starting from a set of already-seen ids — the reference book-keeping the spec
describes. -/
def firstSeen : List String → List String → List String
  | [], _ => []
  | x :: xs, seen =>
    if x = "" ∨ x ∈ seen then firstSeen xs seen
    else x :: firstSeen xs (seen ++ [x])

/-! ## Transport lemmas: chunking invariance of the framing loop -/

theorem SBL_pos (c c2 : Char) (rest : List Char) (h : c = '\n' ∧ c2 = '\n') :
    splitBlankLine (c :: c2 :: rest) = [] :: splitBlankLine rest := by
  simp only [splitBlankLine]
  rw [if_pos h]

theorem SBL_neg (c c2 : Char) (rest : List Char) (h : ¬(c = '\n' ∧ c2 = '\n'))
    (b : List Char) (bs : List (List Char)) (hv : splitBlankLine (c2 :: rest) = b :: bs) :
    splitBlankLine (c :: c2 :: rest) = (c :: b) :: bs := by
  simp only [splitBlankLine]
  rw [if_neg h, hv]

theorem SBL_ne_nil (l : List Char) : splitBlankLine l ≠ [] := by
  induction l using splitBlankLine.induct with
  | case1 => simp [splitBlankLine]
  | case2 c => simp [splitBlankLine]
  | case3 c c2 rest h ih => simp [SBL_pos c c2 rest h]
  | case4 c c2 rest h hv ih => exact absurd hv ih
  | case5 c c2 rest h b bs hv ih => simp [SBL_neg c c2 rest h b bs hv]

/-- A string that splits into a single block is that block: it contains no
blank-line delimiter. -/
theorem SBL_singleton (l b : List Char) (h : splitBlankLine l = [b]) : b = l := by
  induction l using splitBlankLine.induct generalizing b with
  | case1 =>
    simp only [splitBlankLine, List.cons.injEq] at h
    exact h.1.symm
  | case2 c =>
    simp only [splitBlankLine, List.cons.injEq] at h
    exact h.1.symm
  | case3 c c2 rest hg ih =>
    rw [SBL_pos c c2 rest hg] at h
    simp only [List.cons.injEq] at h
    exact absurd h.2 (SBL_ne_nil rest)
  | case4 c c2 rest hg hv ih => exact absurd hv (SBL_ne_nil _)
  | case5 c c2 rest hg b0 bs hv ih =>
    rw [SBL_neg c c2 rest hg b0 bs hv] at h
    simp only [List.cons.injEq] at h
    obtain ⟨hb, hbs⟩ := h
    subst hbs
    rw [← hb, ih b0 hv]

theorem initLast_cons {α : Type} (b : List α) (l : List (List α)) (h : l ≠ []) :
    initLast (b :: l) = (b :: (initLast l).1, (initLast l).2) := by
  cases l with
  | nil => exact absurd rfl h
  | cons x xs => rfl

theorem initLast_append {α : Type} (A B : List (List α)) (h : B ≠ []) :
    initLast (A ++ B) = (A ++ (initLast B).1, (initLast B).2) := by
  induction A with
  | nil => simp
  | cons a A ih =>
    have hne : A ++ B ≠ [] := by
      intro hc
      rcases List.append_eq_nil.mp hc with ⟨-, h2⟩
      exact h h2
    rw [List.cons_append, initLast_cons a (A ++ B) hne, ih]
    rfl

/-- The retained buffer (the last part of the split) never contains a
delimiter: re-splitting it yields itself. -/
theorem SBL_last (s : List Char) :
    splitBlankLine ((initLast (splitBlankLine s)).2) =
      [(initLast (splitBlankLine s)).2] := by
  induction s using splitBlankLine.induct with
  | case1 => rfl
  | case2 c => rfl
  | case3 c c2 rest hg ih =>
    rw [SBL_pos c c2 rest hg, initLast_cons [] _ (SBL_ne_nil rest)]
    exact ih
  | case4 c c2 rest hg hv ih => exact absurd hv (SBL_ne_nil _)
  | case5 c c2 rest hg b bs hv ih =>
    rw [SBL_neg c c2 rest hg b bs hv]
    cases bs with
    | nil =>
      have hb := SBL_singleton _ _ hv
      subst hb
      exact SBL_neg c c2 rest hg _ _ hv
    | cons b2 bs2 =>
      rw [initLast_cons (c :: b) (b2 :: bs2) (by simp)]
      rw [hv, initLast_cons b (b2 :: bs2) (by simp)] at ih
      exact ih

/-- The central framing lemma: splitting `x ++ y` emits first the complete
blocks of `x`, then whatever splitting the retained buffer of `x` followed by
`y` emits — a delimiter spanning the boundary is found by the re-scan. -/
theorem SBL_append (x y : List Char) :
    splitBlankLine (x ++ y) =
      (initLast (splitBlankLine x)).1 ++
        splitBlankLine ((initLast (splitBlankLine x)).2 ++ y) := by
  induction x using splitBlankLine.induct with
  | case1 => rfl
  | case2 c => rfl
  | case3 c c2 rest hg ih =>
    show splitBlankLine (c :: c2 :: (rest ++ y)) = _
    rw [SBL_pos c c2 (rest ++ y) hg, ih,
        SBL_pos c c2 rest hg, initLast_cons [] _ (SBL_ne_nil rest)]
    rfl
  | case4 c c2 rest hg hv ih => exact absurd hv (SBL_ne_nil _)
  | case5 c c2 rest hg b bs hv ih =>
    cases bs with
    | nil =>
      have hb := SBL_singleton _ _ hv
      subst hb
      rw [SBL_neg c c2 rest hg _ _ hv]
      rfl
    | cons b2 bs2 =>
      rw [hv, initLast_cons b (b2 :: bs2) (by simp)] at ih
      rw [SBL_neg c c2 rest hg _ _ hv,
          initLast_cons (c :: b) (b2 :: bs2) (by simp)]
      show splitBlankLine (c :: c2 :: (rest ++ y)) = _
      have hv' : splitBlankLine (c2 :: (rest ++ y)) =
          b :: ((initLast (b2 :: bs2)).1 ++
            splitBlankLine ((initLast (b2 :: bs2)).2 ++ y)) := by
        rw [show (c2 : Char) :: (rest ++ y) = (c2 :: rest) ++ y from rfl, ih]
        rfl
      rw [SBL_neg c c2 (rest ++ y) hg _ _ hv']
      rfl

theorem runBlocks_append (jok : List Char → Bool) (A B : List (List Char)) :
    runBlocks jok (A ++ B) =
      if (runBlocks jok A).2 then runBlocks jok A
      else ((runBlocks jok A).1 ++ (runBlocks jok B).1, (runBlocks jok B).2) := by
  induction A with
  | nil => simp [runBlocks]
  | cons b A ih =>
    simp only [List.cons_append, runBlocks, List.append_eq]
    rw [ih]
    by_cases hb : (blockEvents jok b).2
    · simp [hb]
    · by_cases hA : (runBlocks jok A).2
      · simp [hb, hA]
      · simp [hb, hA, List.append_assoc]

/-- Running the incremental loop from a delimiter-free buffer emits exactly
what parsing the whole remaining input at once emits. -/
theorem processChunks_batch (jok : List Char → Bool) (chunks : List (List Char)) :
    ∀ buf : List Char, splitBlankLine buf = [buf] →
      processChunks jok buf chunks = batchRun jok (buf ++ chunks.flatten) := by
  induction chunks with
  | nil =>
    intro buf hbuf
    simp only [processChunks, List.flatten_nil, List.append_nil, batchRun, hbuf]
    rfl
  | cons c cs ih =>
    intro buf hbuf
    have hih := ih _ (SBL_last (buf ++ c))
    have hassoc : buf ++ (c :: cs).flatten = (buf ++ c) ++ cs.flatten := by
      simp [List.append_assoc]
    rw [hassoc]
    unfold batchRun
    rw [SBL_append (buf ++ c) cs.flatten,
        initLast_append _ _ (SBL_ne_nil _),
        runBlocks_append]
    simp only [processChunks]
    rw [hih]
    unfold batchRun
    by_cases hstop : (runBlocks jok (initLast (splitBlankLine (buf ++ c))).1).2 <;>
      simp [hstop]

/-- C4: for every byte stream and every way of splitting it into chunks the
transport emits the same sequence of events — a block spanning a chunk
boundary is held in the buffer until completed, no event is emitted from a
partial block, and nothing is lost or duplicated: parsing the chunked stream
equals parsing the whole stream at once. -/
theorem transport_chunking_invariant (jok : List Char → Bool)
    (chunks : List (List Char)) :
    processChunks jok [] chunks = processChunks jok [] [chunks.flatten] := by
  have h1 := processChunks_batch jok chunks [] rfl
  have h2 := processChunks_batch jok [chunks.flatten] [] rfl
  rw [h1, h2]
  simp

/-! ## Controller lemmas -/

theorem consume_append (s : Session) (l₁ l₂ : List CB) :
    consume s (l₁ ++ l₂) = consume (consume s l₁) l₂ := by
  induction l₁ generalizing s with
  | nil => rfl
  | cons cb l ih => cases cb <;> simp [consume, ih]

/-- Non-terminal callbacks leave the committed messages, the typing flag and
the abort handle untouched, and extend the buffered response by exactly the
concatenated token text. -/
theorem consume_nonterminal (cbs : List CB) (s : Session)
    (h : ∀ cb ∈ cbs, cb.isTerminal = false) :
    (consume s cbs).messages = s.messages ∧
    (consume s cbs).isTyping = s.isTyping ∧
    (consume s cbs).currentResponse = s.currentResponse ++ concatTokens cbs := by
  induction cbs generalizing s with
  | nil => simp [consume, concatTokens]
  | cons cb l ih =>
    cases cb with
    | token t =>
      have := ih (onToken s t) (fun cb hcb => h cb (List.mem_cons_of_mem _ hcb))
      simpa [consume, concatTokens, onToken, String.append_assoc] using this
    | citation c =>
      have hih := ih (onCitation s c) (fun cb hcb => h cb (List.mem_cons_of_mem _ hcb))
      have hmsg : (onCitation s c).messages = s.messages ∧
          (onCitation s c).isTyping = s.isTyping ∧
          (onCitation s c).currentResponse = s.currentResponse := by
        unfold onCitation
        by_cases hc : c.citation_id = "" ∨ c.citation_id ∈ s.citationIds <;> simp [hc]
      simp only [consume, concatTokens]
      rw [hih.1, hih.2.1, hih.2.2, hmsg.1, hmsg.2.1, hmsg.2.2]
      exact ⟨rfl, rfl, rfl⟩
    | done u => exact absurd (h _ (List.mem_cons_self _ _)) (by simp [CB.isTerminal])
    | error e => exact absurd (h _ (List.mem_cons_self _ _)) (by simp [CB.isTerminal])

/-- C10: When a turn terminates via the error callback, the committed
assistant Message carries only the localized failure text and no references —
the references accumulated from earlier Citation events are discarded with
the rest of the pending turn — and the previously committed messages are
unchanged: the error path only appends one message. -/
theorem error_commit_frame (s : Session) (errText : String) :
    (onError s errText).messages =
      s.messages ++
        [{ type := .assistant
           content := "抱歉，处理你的请求时出现错误：" ++ errText
           references := none }] ∧
    (onError s errText).currentReferences = [] ∧
    (onError s errText).currentResponse = "" ∧
    (onError s errText).citationIds = [] ∧
    (onError s errText).isTyping = false := by
  simp [onError]

/-- C7 counterexample: when the remote clear-session collaborator answers
with an error response, `clearChat` leaves the committed messages unchanged —
it does not reset them to the single welcome message, contradicting the
claim that local reset happens for every collaborator outcome. -/
theorem clear_error_response_no_reset :
    (clearChat (onDone (startTurn initialSession "hi") true)
        (.errorResponse "Internal Server Error")).messages ≠ [welcomeMessage] ∧
    (clearChat (onDone (startTurn initialSession "hi") true)
        (.errorResponse "Internal Server Error")).messages =
      (onDone (startTurn initialSession "hi") true).messages := by
  constructor
  · decide
  · rfl

/-- C7 (amended): `clearChat` requests cancellation of any active stream and
invokes the remote clear-session collaborator; the local message list is
reset to the single welcome message when the collaborator succeeds or fails
with a network-unreachable error, while an error response from the
collaborator leaves the local messages unchanged. -/
theorem clear_local_reset (s : Session) (st : String) :
    (clearChat s .success).messages = [welcomeMessage] ∧
    (clearChat s .networkUnreachable).messages = [welcomeMessage] ∧
    (clearChat s (.errorResponse st)).messages = s.messages ∧
    clearChat s (.errorResponse st) = requestAbort s := by
  refine ⟨rfl, rfl, ?_, rfl⟩
  unfold clearChat requestAbort
  cases s.abortCtrl <;> rfl

/-- C3: the code_bug witness.  All three cancellation sites (re-send, clear,
unmount) only execute `abortRef.current?.abort()`, but `abortRef.current` is
never assigned anywhere in the source and `processChatStream` accepts no
abort signal, so the request is a no-op: a Token event arriving after the
cancellation request still mutates the pending turn, and the Done event still
commits an assistant message for the supposedly cancelled turn. -/
theorem cancellation_has_no_effect :
    requestAbort (onToken (startTurn initialSession "question") "Hel") =
      onToken (startTurn initialSession "question") "Hel" ∧
    (consume (requestAbort (onToken (startTurn initialSession "question") "Hel"))
        [CB.token "lo", CB.done true]).messages =
      [welcomeMessage,
       { type := .user, content := "question", references := none },
       { type := .assistant, content := "Hello", references := none }] ∧
    (consume (requestAbort (onToken (startTurn initialSession "question") "Hel"))
        [CB.token "lo", CB.done true]).isTyping = false := by
  refine ⟨rfl, ?_, rfl⟩
  decide

/-- C1: For every turn that ends with a Done event, the committed assistant
message's content is the exact concatenation, in arrival order, of the text
of all Token events of the turn; when no token text arrived the committed
content is the non-empty placeholder `"_（空响应）_"`, never the empty
string. -/
theorem tokens_concat_committed (s : Session) (userText : String) (cbs : List CB)
    (used : Bool) (h : ∀ cb ∈ cbs, cb.isTerminal = false) :
    ∃ m : Message,
      (consume (startTurn s userText) (cbs ++ [CB.done used])).messages =
        (startTurn s userText).messages ++ [m] ∧
      m.type = .assistant ∧
      m.content = (if concatTokens cbs = "" then "_（空响应）_" else concatTokens cbs) ∧
      m.content ≠ "" := by
  have hnt := consume_nonterminal cbs (startTurn s userText) h
  have hcr : (consume (startTurn s userText) cbs).currentResponse = concatTokens cbs := by
    rw [hnt.2.2]; simp [startTurn]
  refine ⟨{ type := .assistant
            content := if concatTokens cbs = "" then "_（空响应）_" else concatTokens cbs
            references := if (consume (startTurn s userText) cbs).currentReferences.length ≠ 0
              then some (consume (startTurn s userText) cbs).currentReferences else none },
          ?_, rfl, rfl, ?_⟩
  · rw [consume_append]
    show (onDone (consume (startTurn s userText) cbs) used).messages = _
    simp [onDone, hnt.1, hcr]
  · by_cases hc : concatTokens cbs = ""
    · simp only [if_pos hc]; decide
    · simp only [if_neg hc]; exact hc

theorem tokens_concat_committed_witness :
    (∀ cb ∈ [CB.token "Connect ", CB.token "the ", CB.token "cable."],
        cb.isTerminal = false) ∧
    ∃ m : Message,
      (consume (startTurn initialSession "How to install?")
          ([CB.token "Connect ", CB.token "the ", CB.token "cable."] ++
            [CB.done true])).messages =
        (startTurn initialSession "How to install?").messages ++ [m] ∧
      m.type = .assistant ∧
      m.content = (if concatTokens [CB.token "Connect ", CB.token "the ", CB.token "cable."] = ""
        then "_（空响应）_"
        else concatTokens [CB.token "Connect ", CB.token "the ", CB.token "cable."]) ∧
      m.content ≠ "" :=
  ⟨by decide,
   tokens_concat_committed initialSession "How to install?" _ true (by decide)⟩

/-- C9: if the byte stream ends without a parsed `done`/`error` event, the
transport emits nothing further — a complete block left in the buffer without
its trailing blank-line delimiter is discarded, never emitted — and a turn
whose callback trace contains no terminal callback leaves the typing flag set
and commits no assistant message. -/
theorem stream_without_terminal_commits_nothing :
    (∀ jok : List Char → Bool,
        processChunks jok [] [("event: done\ndata: \x7b\x7d").toList] = []) ∧
    (∀ (s : Session) (u : String) (cbs : List CB),
        (∀ cb ∈ cbs, cb.isTerminal = false) →
        (consume (startTurn s u) cbs).isTyping = true ∧
        (consume (startTurn s u) cbs).messages = (startTurn s u).messages) := by
  constructor
  · intro jok
    have hsp : splitBlankLine (("event: done\ndata: \x7b\x7d").toList) =
        [("event: done\ndata: \x7b\x7d").toList] := by decide
    simp [processChunks, hsp, initLast, runBlocks]
  · intro s u cbs h
    have hnt := consume_nonterminal cbs (startTurn s u) h
    exact ⟨by rw [hnt.2.1]; rfl, hnt.1⟩

theorem stream_without_terminal_commits_nothing_witness :
    (∀ cb ∈ [CB.token "partial answer"], cb.isTerminal = false) ∧
    (consume (startTurn initialSession "q") [CB.token "partial answer"]).isTyping = true :=
  ⟨by decide,
   ((stream_without_terminal_commits_nothing.2 initialSession "q"
      [CB.token "partial answer"]) (by decide)).1⟩

theorem firstSeen_nil (seen : List String) : firstSeen [] seen = [] := rfl

theorem firstSeen_cons (x : String) (xs seen : List String) :
    firstSeen (x :: xs) seen =
      if x = "" ∨ x ∈ seen then firstSeen xs seen
      else x :: firstSeen xs (seen ++ [x]) := rfl

/-- The invariant-carrying induction behind the citation bookkeeping: when
the seen-set lists exactly the citation ids of the accumulated references (in
order) and the display indices are `1..n`, a run of citation callbacks
appends exactly the not-yet-seen non-empty ids, keeps both lists in sync and
keeps the indices `1..n`. -/
theorem citation_run_general (cs : List CitationPayload) (s : Session)
    (hsync : s.currentReferences.map (fun r => r.citationId) = s.citationIds.map some)
    (hids : s.currentReferences.map (fun r => r.id) =
      List.range' 1 s.currentReferences.length) :
    (consume s (cs.map CB.citation)).citationIds =
        s.citationIds ++ firstSeen (cs.map (fun c => c.citation_id)) s.citationIds ∧
    (consume s (cs.map CB.citation)).currentReferences.map (fun r => r.citationId) =
        (s.citationIds ++ firstSeen (cs.map (fun c => c.citation_id)) s.citationIds).map some ∧
    (consume s (cs.map CB.citation)).currentReferences.map (fun r => r.id) =
        List.range' 1
          (s.citationIds ++ firstSeen (cs.map (fun c => c.citation_id)) s.citationIds).length := by
  induction cs generalizing s with
  | nil =>
    have hlen : s.currentReferences.length = s.citationIds.length := by
      simpa using congrArg List.length hsync
    refine ⟨by simp [consume, firstSeen_nil], ?_, ?_⟩
    · simpa [consume, firstSeen_nil] using hsync
    · simp only [List.map_nil, consume, firstSeen_nil, List.append_nil]
      rw [hids, hlen]
  | cons c cs ih =>
    simp only [List.map_cons, consume]
    by_cases hc : c.citation_id = "" ∨ c.citation_id ∈ s.citationIds
    · have heq : onCitation s c = s := by unfold onCitation; rw [if_pos hc]
      rw [heq, firstSeen_cons, if_pos hc]
      exact ih s hsync hids
    · have heq : onCitation s c =
          { s with
            citationIds := s.citationIds ++ [c.citation_id]
            currentReferences := s.currentReferences ++
              [{ id := s.currentReferences.length + 1
                 text := "第 " ++ (match c.page with | some p => toString p | none => "?") ++
                   " 页相关内容"
                 page := c.page.getD 0
                 citationId := some c.citation_id
                 rank := some c.rank
                 snippet := c.snippet
                 previewUrl := some c.previewUrl
                 fileId := some c.fileId }] } := by
        unfold onCitation; rw [if_neg hc]
      have h1 := ih (onCitation s c)
        (by rw [heq]; simp [hsync])
        (by
          rw [heq]
          simp only [List.map_append, List.map_cons, List.map_nil, List.length_append,
            List.length_cons, List.length_nil]
          rw [hids]
          have hrc : List.range' 1 (s.currentReferences.length + 1) =
              List.range' 1 s.currentReferences.length ++ [1 + 1 * s.currentReferences.length] :=
            List.range'_concat 1 s.currentReferences.length
          rw [hrc]
          congr 1
          simp [Nat.add_comm])
      have hcid : (onCitation s c).citationIds = s.citationIds ++ [c.citation_id] := by
        rw [heq]
      rw [hcid] at h1
      rw [firstSeen_cons, if_neg hc]
      have hassoc : s.citationIds ++
          (c.citation_id ::
            firstSeen (cs.map (fun c => c.citation_id)) (s.citationIds ++ [c.citation_id])) =
          (s.citationIds ++ [c.citation_id]) ++
            firstSeen (cs.map (fun c => c.citation_id)) (s.citationIds ++ [c.citation_id]) := by
        simp
      rw [hassoc]
      exact h1

/-- C2: a Citation whose citationId is empty or already seen leaves the state
unchanged (idempotent processing); for any sequence of Citation events
starting from a fresh pending turn, the accumulated references carry exactly
the distinct non-empty citationIds in first-seen arrival order, their display
indices are `1..n`, and the reference count equals the number of distinct
non-empty citationIds. -/
theorem citation_dedup_order :
    (∀ (s : Session) (c : CitationPayload),
        (c.citation_id = "" ∨ c.citation_id ∈ s.citationIds) → onCitation s c = s) ∧
    (∀ (cs : List CitationPayload) (s : Session),
        s.currentReferences = [] → s.citationIds = [] →
        ((consume s (cs.map CB.citation)).currentReferences.map (fun r => r.citationId) =
            (firstSeen (cs.map (fun c => c.citation_id)) []).map some ∧
         (consume s (cs.map CB.citation)).currentReferences.map (fun r => r.id) =
            List.range' 1 (consume s (cs.map CB.citation)).currentReferences.length ∧
         (consume s (cs.map CB.citation)).currentReferences.length =
            (firstSeen (cs.map (fun c => c.citation_id)) []).length)) := by
  constructor
  · intro s c hc
    unfold onCitation
    rw [if_pos hc]
  · intro cs s hrefs hids
    have h1 := citation_run_general cs s
      (by rw [hrefs, hids]; rfl)
      (by rw [hrefs]; rfl)
    rw [hids] at h1
    simp only [List.nil_append] at h1
    have hlen : (consume s (cs.map CB.citation)).currentReferences.length =
        (firstSeen (cs.map (fun c => c.citation_id)) []).length := by
      have := congrArg List.length h1.2.1
      simpa using this
    exact ⟨h1.2.1, by rw [h1.2.2, hlen], hlen⟩

theorem citation_dedup_order_witness :
    (("" : String) = "" ∨ ("" : String) ∈ initialSession.citationIds) ∧
    onCitation initialSession
        { citation_id := "", fileId := "f0", rank := 9, page := none,
          previewUrl := "u0", snippet := none } =
      initialSession ∧
    (consume initialSession
        ([{ citation_id := "c1", fileId := "f1", rank := 1, page := some 3,
            previewUrl := "u1", snippet := some "s" },
          { citation_id := "c1", fileId := "f1", rank := 1, page := some 3,
            previewUrl := "u1", snippet := some "s" },
          { citation_id := "", fileId := "f0", rank := 9, page := none,
            previewUrl := "u0", snippet := none },
          { citation_id := "c2", fileId := "f2", rank := 2, page := some 5,
            previewUrl := "u2", snippet := none }].map CB.citation)).currentReferences.map
        (fun r => r.citationId) =
      (firstSeen ["c1", "c1", "", "c2"] []).map some :=
  ⟨Or.inl rfl,
   citation_dedup_order.1 _ _ (Or.inl rfl),
   (citation_dedup_order.2 _ initialSession rfl rfl).1⟩

/-- No callback of the simulated-streaming branch is an error callback: the
mock path emits only tokens followed by `done`. -/
theorem mockTrace_no_error (m : String) : ∀ cb ∈ mockTrace m, cb.isError = false := by
  intro cb hcb
  unfold mockTrace at hcb
  rcases List.mem_append.1 hcb with h | h
  · obtain ⟨w, _, rfl⟩ := List.mem_map.1 h
    rfl
  · rw [List.mem_singleton.1 h]
    rfl

/-- C6 counterexample: when the connection is never established
(`TypeError: Failed to fetch`), `processChatStream` does not behave like an
`Error` event at all — its callback trace contains no error callback and ends
with `done`, so the controller commits a normal mock assistant message
instead of an error message. -/
theorem transport_unreachable_not_error_path :
    (catchTrace "hi" .networkUnreachable).all (fun cb => !cb.isError) = true ∧
    (catchTrace "hi" .networkUnreachable).getLast? = some (CB.done false) := by
  constructor
  · rw [List.all_eq_true]
    intro cb hcb
    rw [Bool.not_eq_true']
    exact mockTrace_no_error "hi" cb hcb
  · show (mockTrace "hi").getLast? = _
    unfold mockTrace
    exact List.getLast?_concat _

/-- C6 (amended): a transport-level failure before any payload byte is
received is handled identically to an `Error` event — committed error
message, cleared pending turn, `Idle` — for a non-ok response and for a
missing response body; the network-unreachable failure
(`TypeError: Failed to fetch`) is the exception: it streams the simulated
mock response, whose trace contains no error callback and ends with `done`. -/
theorem transport_failure_error_path (s : Session) (u msg st : String) :
    ((consume (startTurn s u) (catchTrace msg (.httpError st))).messages =
        (startTurn s u).messages ++
          [{ type := .assistant
             content := "抱歉，处理你的请求时出现错误：" ++ ("Chat request failed: " ++ st)
             references := none }] ∧
     (consume (startTurn s u) (catchTrace msg (.httpError st))).isTyping = false ∧
     (consume (startTurn s u) (catchTrace msg (.httpError st))).currentResponse = "") ∧
    ((consume (startTurn s u) (catchTrace msg .noBody)).messages =
        (startTurn s u).messages ++
          [{ type := .assistant
             content := "抱歉，处理你的请求时出现错误：" ++ "No response body"
             references := none }] ∧
     (consume (startTurn s u) (catchTrace msg .noBody)).isTyping = false) ∧
    (catchTrace msg .networkUnreachable).all (fun cb => !cb.isError) = true ∧
    (catchTrace msg .networkUnreachable).getLast? = some (CB.done false) := by
  refine ⟨⟨rfl, rfl, rfl⟩, ⟨rfl, rfl⟩, ?_, ?_⟩
  · rw [List.all_eq_true]
    intro cb hcb
    rw [Bool.not_eq_true']
    exact mockTrace_no_error msg cb hcb
  · show (mockTrace msg).getLast? = _
    unfold mockTrace
    exact List.getLast?_concat _

/-- C8: an address whose scheme is on the configured allowlist
(`http`/`https`/`data`/`blob` for images, `http`/`https`/`mailto`/`tel` for
links) is preserved unchanged, and an address with any other scheme is
silently dropped (the sanitizer is total — dropping, never raising); in
particular a `javascript:` link is dropped while `https:` and `data:` image
addresses are preserved unchanged. -/
theorem sanitize_scheme_allowlist :
    (∀ u sch, urlScheme u = some sch → sch ∈ srcProtocols → sanitizeImgSrc u = some u) ∧
    (∀ u sch, urlScheme u = some sch → sch ∉ srcProtocols → sanitizeImgSrc u = none) ∧
    (∀ u sch, urlScheme u = some sch → sch ∈ hrefProtocols → sanitizeLinkHref u = some u) ∧
    (∀ u sch, urlScheme u = some sch → sch ∉ hrefProtocols → sanitizeLinkHref u = none) ∧
    sanitizeLinkHref "javascript:void(0)" = none ∧
    sanitizeImgSrc "https://example.com/a.png" = some "https://example.com/a.png" ∧
    sanitizeImgSrc "data:image/png;base64,iVBORw0KGgo=" =
      some "data:image/png;base64,iVBORw0KGgo=" := by
  refine ⟨?_, ?_, ?_, ?_, by decide, by decide, by decide⟩
  · intro u sch h hm
    unfold sanitizeImgSrc sanitizeUrl
    rw [h]
    simp [hm]
  · intro u sch h hm
    unfold sanitizeImgSrc sanitizeUrl
    rw [h]
    simp [hm]
  · intro u sch h hm
    unfold sanitizeLinkHref sanitizeUrl
    rw [h]
    simp [hm]
  · intro u sch h hm
    unfold sanitizeLinkHref sanitizeUrl
    rw [h]
    simp [hm]

theorem optTruthyS_some_of_ne {f : String} (h : f ≠ "") : optTruthyS (some f) = true := by
  simp [optTruthyS, h]

theorem truthy_elim {o : Option String} (h : optTruthyS o = true) :
    ∃ f, f ≠ "" ∧ o = some f := by
  cases o with
  | none => simp [optTruthyS] at h
  | some f =>
    refine ⟨f, ?_, rfl⟩
    intro hf
    rw [hf] at h
    simp [optTruthyS] at h

/-- Normalisation of the shared tail of the fileId chain (fallback first,
then the first reference with any fileId): the running JavaScript value is
falsy exactly when `resolveTail` is `none`, and otherwise both sides agree on
a non-empty fileId. -/
theorem tailChain_norm (refs : List Reference) (fb : Option String) :
    (optTruthyS
        (if optTruthyS fb then fb
         else
           match refs.find? (fun r => optTruthyS r.fileId) with
           | some ar => if optTruthyS ar.fileId then ar.fileId else fb
           | none => fb) = false ∧
      resolveTail refs fb = none) ∨
    (∃ f, f ≠ "" ∧
      (if optTruthyS fb then fb
       else
         match refs.find? (fun r => optTruthyS r.fileId) with
         | some ar => if optTruthyS ar.fileId then ar.fileId else fb
         | none => fb) = some f ∧
      resolveTail refs fb = some f) := by
  by_cases hfb : optTruthyS fb = true
  · obtain ⟨f, hne, rfl⟩ := truthy_elim hfb
    right
    exact ⟨f, hne, by rw [if_pos hfb], by unfold resolveTail; rw [if_pos hfb]⟩
  · rw [Bool.not_eq_true] at hfb
    rw [if_neg (by simp [hfb])]
    cases hfind : refs.find? (fun r => optTruthyS r.fileId) with
    | none =>
      left
      constructor
      · simp only [hfind, hfb]
      · unfold resolveTail
        rw [if_neg (by simp [hfb]), hfind]
    | some ar =>
      have htr : optTruthyS ar.fileId = true := by
        simpa using List.find?_some hfind
      obtain ⟨f, hne, hfe⟩ := truthy_elim htr
      right
      refine ⟨f, hne, ?_, ?_⟩
      · simp [hfind, htr, hfe, optTruthyS_some_of_ne hne]
      · unfold resolveTail
        rw [if_neg (by simp [hfb]), hfind]
        simpa using hfe

/-- The fileId chosen by the code's chain is falsy exactly when
`resolveOrder` reports unresolved, and otherwise both agree on a non-empty
fileId. -/
theorem chainTarget_resolveOrder (ip : Option Nat) (refs : List Reference)
    (fb : Option String) :
    (optTruthyS (chainTarget ip refs fb) = false ∧ resolveOrder ip refs fb = none) ∨
    (∃ f, f ≠ "" ∧ chainTarget ip refs fb = some f ∧ resolveOrder ip refs fb = some f) := by
  by_cases h0 : 0 < refs.length
  · unfold chainTarget resolveOrder
    rw [if_pos h0]
    cases ip with
    | none => exact tailChain_norm refs fb
    | some p =>
      cases hf : refs.find? (fun r => r.page == p && optTruthyS r.fileId) with
      | none => simpa only [hf] using tailChain_norm refs fb
      | some mr =>
        have hp : (mr.page == p && optTruthyS mr.fileId) = true := by
          simpa using List.find?_some hf
        rw [Bool.and_eq_true] at hp
        obtain ⟨f, hne, hfe⟩ := truthy_elim hp.2
        right
        exact ⟨f, hne, by simp [hf, hp.2, hfe, optTruthyS_some_of_ne hne],
          by simp [hf, hfe]⟩
  · have hnil : refs = [] := List.length_eq_zero.mp (by omega)
    subst hnil
    unfold chainTarget resolveOrder resolveTail
    rw [if_neg h0]
    by_cases hfb : optTruthyS fb = true
    · obtain ⟨f, hne, rfl⟩ := truthy_elim hfb
      right
      refine ⟨f, hne, rfl, ?_⟩
      cases ip <;> simp [List.find?_nil, hfb]
    · left
      rw [Bool.not_eq_true] at hfb
      refine ⟨hfb, ?_⟩
      cases ip <;> simp [List.find?_nil, hfb]

/-- C5 counterexample: with references `[{page 5, fileId f2}]` and
`fallbackFileId f3`, resolving `images/page99_img1.png` (page 99 matches no
reference) returns the address built from the fallback `f3`, whereas the
claim's chain — first reference with any fileId before the fallback — picks
`f2`; the two addresses differ. -/
theorem resolver_counterexample :
    fixedSrc ("images/page99_img1.png".toList)
        [{ id := 1, text := "第 5 页相关内容", page := 5, citationId := some "c2",
           rank := some 1, snippet := none, previewUrl := some "u", fileId := some "f2" }]
        (some "f3") =
      urlFor ("f3".toList) ("page99_img1.png".toList) ∧
    claimResolve (findPageNum ("page99_img1.png".toList))
        [{ id := 1, text := "第 5 页相关内容", page := 5, citationId := some "c2",
           rank := some 1, snippet := none, previewUrl := some "u", fileId := some "f2" }]
        (some "f3") = some "f2" ∧
    urlFor ("f3".toList) ("page99_img1.png".toList) ≠
      urlFor ("f2".toList) ("page99_img1.png".toList) :=
  ⟨by decide, by decide, by decide⟩

/-- C5 (amended): for a relative `images/` path, the resolver picks a fileId
in this order — (i) the first reference whose page equals the page extracted
from the filename and that has a (truthy) fileId; (ii) else `fallbackFileId`
when present and non-empty; (iii) else the first reference with any truthy
fileId; (iv) else the result is unresolved (`""`); when a fileId is found the
result is the canonical asset address built from (fileId, filename). -/
theorem resolver_fallback_order (src : List Char) (refs : List Reference) (fb : Option String)
    (h1 : src ≠ []) (h2 : ("http".toList).isPrefixOf src = false)
    (h3 : ("/api/".toList).isPrefixOf src = false)
    (h4 : listContains ("images/".toList) src = true)
    (h5 : (initLast (splitChar '/' src)).2 ≠ []) :
    fixedSrc src refs fb =
      match resolveOrder (findPageNum ((initLast (splitChar '/' src)).2)) refs fb with
      | some f => urlFor f.toList ((initLast (splitChar '/' src)).2)
      | none => [] := by
  rcases chainTarget_resolveOrder (findPageNum ((initLast (splitChar '/' src)).2)) refs fb with
    ⟨hfalse, hnone⟩ | ⟨f, hne, hct, hro⟩
  · simp only [fixedSrc, if_neg h1, h2, h3, Bool.or_self, Bool.false_eq_true, if_false, h4,
      if_true, if_neg h5, hfalse, hnone]
  · simp only [fixedSrc, if_neg h1, h2, h3, Bool.or_self, Bool.false_eq_true, if_false, h4,
      if_true, if_neg h5, hct, hro, optTruthyS_some_of_ne hne, if_true, Option.getD_some]

theorem resolver_fallback_order_witness :
    ("images/page22_img1.png".toList ≠ ([] : List Char)) ∧
    listContains ("images/".toList) ("images/page22_img1.png".toList) = true ∧
    fixedSrc ("images/page22_img1.png".toList)
        [{ id := 1, text := "第 22 页相关内容", page := 22, citationId := some "c1",
           rank := some 1, snippet := none, previewUrl := some "u1", fileId := some "f1" },
         { id := 2, text := "第 5 页相关内容", page := 5, citationId := some "c2",
           rank := some 2, snippet := none, previewUrl := some "u2", fileId := some "f2" }]
        none =
      match resolveOrder
          (findPageNum ((initLast (splitChar '/' ("images/page22_img1.png".toList))).2))
          [{ id := 1, text := "第 22 页相关内容", page := 22, citationId := some "c1",
             rank := some 1, snippet := none, previewUrl := some "u1", fileId := some "f1" },
           { id := 2, text := "第 5 页相关内容", page := 5, citationId := some "c2",
             rank := some 2, snippet := none, previewUrl := some "u2", fileId := some "f2" }]
          none with
      | some f =>
        urlFor f.toList ((initLast (splitChar '/' ("images/page22_img1.png".toList))).2)
      | none => [] :=
  ⟨by decide, by decide,
   resolver_fallback_order _ _ _ (by decide) (by decide) (by decide) (by decide) (by decide)⟩

theorem sanitize_scheme_allowlist_witness :
    urlScheme "https://example.com/a.png" = some "https" ∧
    "https" ∈ srcProtocols ∧
    sanitizeImgSrc "https://example.com/a.png" = some "https://example.com/a.png" :=
  ⟨by decide, by decide,
   sanitize_scheme_allowlist.1 "https://example.com/a.png" "https" (by decide) (by decide)⟩

end SeaRag
